import Mathlib

/-!
# Verification of the NeuronDatasets image-resize utility (`src/bin/resize.py`)

The program is a batch CLI: it parses three positional arguments
(`path`, `width`, `height`), lists the directory at `path` once, and for
every entry that is a regular file decodes it as an image, resizes it to
exactly `width × height`, and saves it back to the same file path (built by
direct string concatenation `path + item`).

We give a shallow embedding: the filesystem is a pair of association lists
(directory path → ordered listing, file path → file content); the PIL
library calls (`Image.open`, `Image.resize`, `Image.save`) are modelled at
the granularity the program observes (decodability, pixel dimensions, the
encoding format implied by the file extension); `argparse` is modelled on
the list of positional arguments.
-/

namespace ResizeUtil

/-- Content of a regular file, at the granularity the program observes:
either a well-formed encoded image (its format together with its pixel
dimensions) or bytes that do not decode as an image. -/
inductive FileContent where
  | image (format : String) (width height : Int)
  | nonImage (bytes : List Nat)
deriving DecidableEq, Repr

/-- The files component of the filesystem: an association list from full
file-path strings to contents.  A path is a regular file iff it is a key
of this list (`os.path.isfile`). -/
def Files := List (String × FileContent)

instance : DecidableEq Files := by
  unfold Files
  infer_instance

/-- The filesystem world: `listings` maps each directory path to its
ordered entry listing (`os.listdir`); `files` maps each regular-file path
to its content.  Directory entries that are not regular files (for example
subdirectories) appear in listings but have no key in `files`. -/
structure World where
  listings : List (String × List String)
  files : Files
deriving DecidableEq

/-- Look up a directory listing (`os.listdir path`); `none` models the
`FileNotFoundError`/`NotADirectoryError` raised for a non-listable path. -/
def lookupListing : List (String × List String) → String → Option (List String)
  | [], _ => none
  | (k, v) :: rest, key => if k = key then some v else lookupListing rest key

/-- Look up a regular file's content; `none` means the path is not a
regular file (`os.path.isfile` is false / `open` would fail). -/
def lookupFC : Files → String → Option FileContent
  | [], _ => none
  | (k, v) :: rest, key => if k = key then some v else lookupFC rest key

/-- Overwrite the content stored at an existing key, preserving the key
order of the list; a no-op when the key is absent (the program only writes
to paths it has just confirmed to be regular files). -/
def setFC : Files → String → FileContent → Files
  | [], _, _ => []
  | (k, v) :: rest, key, nv =>
    if k = key then (k, nv) :: rest else (k, v) :: setFC rest key nv

/-- An in-memory decoded bitmap (`PIL.Image.Image`): its source format and
pixel dimensions, which is all the program observes. -/
structure PILImage where
  format : String
  width : Int
  height : Int
deriving DecidableEq, Repr

/-- Modelled from the spec: `PIL.Image.open` decodes a file; a file that
is not a valid image raises (here: `none`), which the program does not
catch. -/
def Image_open (c : FileContent) : Option PILImage :=
  match c with
  | .image f w h => some ⟨f, w, h⟩
  | .nonImage _ => none

/-- Modelled from the spec: `im.resize((width, height), Image.ANTIALIAS)`
produces a bitmap of exactly the requested dimensions using a smoothing
resampling filter (the filter affects pixel values only, which the program
never observes). -/
def Image_resize (im : PILImage) (width height : Int) : PILImage :=
  { im with width := width, height := height }

/-- The extension of a path: the characters after the last dot, or `""`
when the path has no dot. -/
def extOf (p : String) : String :=
  let rev := p.data.reverse
  if rev.contains '.' then String.mk (rev.takeWhile (fun c => c ≠ '.')).reverse
  else ""

/-- Modelled from the spec: `im.save(path)` encodes the bitmap in the
format implied by the file extension of `path` and overwrites the file at
`path`. -/
def Image_save (files : Files) (p : String) (im : PILImage) : Files :=
  setFC files p (FileContent.image (extOf p) im.width im.height)

/-- One iteration of the `for item in dirs` loop of `resize()`:
if `os.path.isfile(path+item)` fails the entry is skipped; otherwise the
file is opened (decode failure aborts with the failing path), resized
(the library rejects negative target dimensions), and saved back to
`path+item`.  The `Except` error carries the full path of the failure. -/
def processItem (width height : Int) (path : String) (files : Files)
    (item : String) : Except String Files :=
  match lookupFC files (path ++ item) with
  | none => .ok files
  | some c =>
    match Image_open c with
    | none => .error (path ++ item)
    | some im =>
      if width < 0 ∨ height < 0 then .error (path ++ item)
      else .ok (Image_save files (path ++ item) (Image_resize im width height))

/-- The `resize()` loop over the directory listing.  An error carries the
failing path together with the files component at the moment of the abort
(already-processed files resized, the rest untouched, no rollback). -/
def resizeLoop (width height : Int) (path : String) :
    List String → Files → Except (String × Files) Files
  | [], files => .ok files
  | item :: rest, files =>
    match processItem width height path files item with
    | .error p => .error (p, files)
    | .ok files2 => resizeLoop width height path rest files2

/-- Extract the files component from a loop result, whether it succeeded
or aborted. -/
def loopFiles : Except (String × Files) Files → Files
  | .ok f => f
  | .error (_, f) => f

/-- Outcome of a whole run.  Every constructor carries the final
filesystem world so that "no file modified" claims are statable. -/
inductive RunOutcome where
  | argError (code : Nat) (w : World)
  | listError (w : World)
  | fatal (failedPath : String) (w : World)
  | ok (w : World)
deriving DecidableEq

/-- The final filesystem world of an outcome. -/
def RunOutcome.world : RunOutcome → World
  | .argError _ w => w
  | .listError w => w
  | .fatal _ w => w
  | .ok w => w

/-- The run from the point where the three arguments have resolved:
`dirs = os.listdir(path)` (raising, i.e. `listError`, when `path` is not a
listable directory), then `resize()` over the listing. -/
def runDir (width height : Int) (path : String) (world : World) : RunOutcome :=
  match lookupListing world.listings path with
  | none => .listError world
  | some dirs =>
    match resizeLoop width height path dirs world.files with
    | .error (p, partialFiles) => .fatal p ⟨world.listings, partialFiles⟩
    | .ok files2 => .ok ⟨world.listings, files2⟩

/-- The parsed argument record.  Python's `argparse` stores each argument
as an attribute; the program then tests each attribute against `None`, so
the fields are modelled as options. -/
structure Args where
  path : Option String
  width : Option Int
  height : Option Int
deriving DecidableEq

/-- Python's `int(...)` on a string, as used by `argparse` for
`type=int`: surrounding whitespace is stripped, an optional sign is
followed by a non-empty digit string; anything else raises (here:
`none`). -/
def parsePyInt (s : String) : Option Int :=
  let core := ((s.data.dropWhile Char.isWhitespace).reverse.dropWhile
      Char.isWhitespace).reverse
  let digitsVal : List Char → Option Nat := fun cs =>
    if cs.isEmpty then none
    else cs.foldl (fun acc c =>
      match acc with
      | none => none
      | some n => if c.isDigit then some (n * 10 + (c.toNat - 48)) else none)
      (some 0)
  match core with
  | '-' :: rest => (digitsVal rest).map (fun n => -(n : Int))
  | '+' :: rest => (digitsVal rest).map (fun n => (n : Int))
  | cs => (digitsVal cs).map (fun n => (n : Int))

/-- `argparse` over the positional command-line arguments (the
auto-generated help flag is not modelled): exactly three positionals are
required, the second and third must parse as integers; any violation makes
`argparse` print usage and exit with status 2 before any processing. -/
def parseArgs (argv : List String) : Except Nat Args :=
  match argv with
  | [p, w, h] =>
    match parsePyInt w, parsePyInt h with
    | some wi, some hi => .ok ⟨some p, some wi, some hi⟩
    | _, _ => .error 2
  | _ => .error 2

/-- The whole program: parse the arguments (exiting 2 on a parse error),
run the `None` guard (`exit(1)`), list the directory, and run the resize
loop. -/
def run (argv : List String) (world : World) : RunOutcome :=
  match parseArgs argv with
  | .error c => .argError c world
  | .ok a =>
    if a.path.isNone ∨ a.width.isNone ∨ a.height.isNone then
      .argError 1 world
    else
      runDir (a.width.getD 0) (a.height.getD 0) (a.path.getD "") world

/-! ## Helper lemmas about the filesystem model -/

theorem append_left_cancel {p a b : String} (h : p ++ a = p ++ b) : a = b := by
  have h2 : (p ++ a).data = (p ++ b).data := by rw [h]
  rw [String.data_append, String.data_append] at h2
  exact String.ext (List.append_cancel_left h2)

theorem lookupFC_setFC_ne (l : Files) (key : String) (nv : FileContent)
    (q : String) (h : q ≠ key) :
    lookupFC (setFC l key nv) q = lookupFC l q := by
  induction l with
  | nil => rfl
  | cons kv rest ih =>
    obtain ⟨k, v⟩ := kv
    by_cases hk : k = key
    · subst hk
      simp [setFC, lookupFC, h, Ne.symm h]
    · simp [setFC, lookupFC, hk]
      by_cases hq : k = q <;> simp [hq, ih]

theorem lookupFC_setFC_self (l : Files) (key : String) (nv : FileContent) :
    lookupFC (setFC l key nv) key = (lookupFC l key).map (fun _ => nv) := by
  induction l with
  | nil => rfl
  | cons kv rest ih =>
    obtain ⟨k, v⟩ := kv
    by_cases hk : k = key
    · subst hk
      simp [setFC, lookupFC]
    · simp [setFC, lookupFC, hk, ih]

theorem keys_setFC (l : Files) (key : String) (nv : FileContent) :
    (setFC l key nv).map Prod.fst = l.map Prod.fst := by
  induction l with
  | nil => rfl
  | cons kv rest ih =>
    obtain ⟨k, v⟩ := kv
    by_cases hk : k = key <;> simp [setFC, hk, ih]

theorem setFC_absent (l : Files) (key : String) (nv : FileContent)
    (h : lookupFC l key = none) : setFC l key nv = l := by
  induction l with
  | nil => rfl
  | cons kv rest ih =>
    obtain ⟨k, v⟩ := kv
    by_cases hk : k = key
    · simp [lookupFC, hk] at h
    · simp [lookupFC, hk] at h
      simp [setFC, hk, ih h]

theorem setFC_lookup_eq (l : Files) (key : String) (v : FileContent)
    (h : lookupFC l key = some v) : setFC l key v = l := by
  induction l with
  | nil => simp [lookupFC] at h
  | cons kv rest ih =>
    obtain ⟨k, w⟩ := kv
    by_cases hk : k = key
    · subst hk
      simp [lookupFC] at h
      simp [setFC, h]
    · simp [lookupFC, hk] at h
      simp [setFC, hk, ih h]

/-! ## Per-iteration lemmas -/

theorem processItem_none (W H : Int) (path item : String) (files : Files)
    (h : lookupFC files (path ++ item) = none) :
    processItem W H path files item = .ok files := by
  unfold processItem
  rw [h]

theorem processItem_nonImage (W H : Int) (path item : String) (files : Files)
    (bs : List Nat) (h : lookupFC files (path ++ item) = some (.nonImage bs)) :
    processItem W H path files item = .error (path ++ item) := by
  unfold processItem
  rw [h]
  rfl

theorem processItem_image (W H : Int) (path item : String) (files : Files)
    (f : String) (w hh : Int) (hW : 0 ≤ W) (hH : 0 ≤ H)
    (h : lookupFC files (path ++ item) = some (.image f w hh)) :
    processItem W H path files item =
      .ok (setFC files (path ++ item)
        (FileContent.image (extOf (path ++ item)) W H)) := by
  have hg : ¬(W < 0 ∨ H < 0) := by omega
  unfold processItem
  rw [h]
  simp [Image_open, Image_resize, Image_save, hg]

theorem processItem_ok_inv (W H : Int) (path item : String)
    (files files1 : Files)
    (h : processItem W H path files item = .ok files1) :
    (lookupFC files (path ++ item) = none ∧ files1 = files) ∨
      (0 ≤ W ∧ 0 ≤ H ∧
        (∃ f w hh, lookupFC files (path ++ item) = some (.image f w hh)) ∧
        files1 = setFC files (path ++ item)
          (FileContent.image (extOf (path ++ item)) W H)) := by
  unfold processItem at h
  cases hc : lookupFC files (path ++ item) with
  | none =>
    rw [hc] at h
    exact Or.inl ⟨rfl, (Except.ok.inj h).symm⟩
  | some c =>
    rw [hc] at h
    cases c with
    | nonImage bs => simp [Image_open] at h
    | image f w hh =>
      by_cases hg : W < 0 ∨ H < 0
      · simp [Image_open, hg] at h
      · simp [Image_open, Image_resize, Image_save, hg] at h
        refine Or.inr ⟨by omega, by omega, ⟨f, w, hh, rfl⟩, h.symm⟩

theorem processItem_frame (W H : Int) (path item : String)
    (files files1 : Files) (q : String) (hq : q ≠ path ++ item)
    (h : processItem W H path files item = .ok files1) :
    lookupFC files1 q = lookupFC files q := by
  rcases processItem_ok_inv W H path item files files1 h with
    ⟨-, rfl⟩ | ⟨-, -, -, rfl⟩
  · rfl
  · exact lookupFC_setFC_ne _ _ _ _ hq

theorem processItem_keys (W H : Int) (path item : String)
    (files files1 : Files)
    (h : processItem W H path files item = .ok files1) :
    files1.map Prod.fst = files.map Prod.fst := by
  rcases processItem_ok_inv W H path item files files1 h with
    ⟨-, rfl⟩ | ⟨-, -, -, rfl⟩
  · rfl
  · exact keys_setFC _ _ _

/-! ## Loop lemmas -/

theorem resizeLoop_frame (W H : Int) (path : String) (items : List String)
    (files : Files) (q : String)
    (hq : q ∉ items.map (fun i => path ++ i)) :
    lookupFC (loopFiles (resizeLoop W H path items files)) q =
      lookupFC files q := by
  induction items generalizing files with
  | nil => rfl
  | cons item rest ih =>
    simp only [List.map_cons, List.mem_cons, not_or] at hq
    obtain ⟨hq1, hq2⟩ := hq
    unfold resizeLoop
    cases hp : processItem W H path files item with
    | error p => rfl
    | ok files1 =>
      have := ih files1 hq2
      rw [this, processItem_frame W H path item files files1 q hq1 hp]

theorem resizeLoop_keys (W H : Int) (path : String) (items : List String)
    (files : Files) :
    (loopFiles (resizeLoop W H path items files)).map Prod.fst =
      files.map Prod.fst := by
  induction items generalizing files with
  | nil => rfl
  | cons item rest ih =>
    unfold resizeLoop
    cases hp : processItem W H path files item with
    | error p => rfl
    | ok files1 =>
      rw [ih files1, processItem_keys W H path item files files1 hp]

theorem lookupFC_setFC_preserves_none (l : Files) (k : String)
    (v : FileContent) (q : String) (h : lookupFC l q = none) :
    lookupFC (setFC l k v) q = none := by
  by_cases hq : q = k
  · subst hq
    rw [setFC_absent l q v h]
    exact h
  · rw [lookupFC_setFC_ne _ _ _ _ hq]
    exact h

theorem processItem_preserves_none (W H : Int) (path item : String)
    (files files1 : Files) (q : String)
    (h : processItem W H path files item = .ok files1)
    (hq : lookupFC files q = none) : lookupFC files1 q = none := by
  rcases processItem_ok_inv W H path item files files1 h with
    ⟨-, rfl⟩ | ⟨-, -, -, rfl⟩
  · exact hq
  · exact lookupFC_setFC_preserves_none _ _ _ _ hq

theorem resizeLoop_preserves_none (W H : Int) (path : String)
    (items : List String) (files : Files) (q : String)
    (hq : lookupFC files q = none) :
    lookupFC (loopFiles (resizeLoop W H path items files)) q = none := by
  induction items generalizing files with
  | nil => exact hq
  | cons item rest ih =>
    unfold resizeLoop
    cases hp : processItem W H path files item with
    | error p => exact hq
    | ok files1 =>
      exact ih files1 (processItem_preserves_none W H path item files files1 q hp hq)

/-- When every listed entry names a decodable image file, the loop
succeeds and every listed path ends up holding an image of exactly the
requested dimensions, encoded in the format implied by its extension. -/
theorem resizeLoop_ok_of_images (W H : Int) (path : String)
    (items : List String) (files : Files) (hW : 0 ≤ W) (hH : 0 ≤ H)
    (himg : ∀ item ∈ items,
      ∃ f w h, lookupFC files (path ++ item) = some (.image f w h)) :
    ∃ files2, resizeLoop W H path items files = .ok files2 ∧
      ∀ q ∈ items.map (fun i => path ++ i),
        lookupFC files2 q = some (.image (extOf q) W H) := by
  induction items generalizing files with
  | nil => exact ⟨files, rfl, by simp⟩
  | cons item rest ih =>
    obtain ⟨f, w, h, hc⟩ := himg item (List.mem_cons_self item rest)
    have hp := processItem_image W H path item files f w h hW hH hc
    set k := path ++ item with hk
    set files1 := setFC files k (FileContent.image (extOf k) W H) with hf1
    have hkimg : lookupFC files1 k = some (.image (extOf k) W H) := by
      rw [hf1, lookupFC_setFC_self, hc]
      rfl
    have himg1 : ∀ i ∈ rest,
        ∃ f w h, lookupFC files1 (path ++ i) = some (.image f w h) := by
      intro i hi
      by_cases hq : path ++ i = k
      · exact ⟨extOf k, W, H, by rw [hq]; exact hkimg⟩
      · rw [hf1, lookupFC_setFC_ne _ _ _ _ hq]
        exact himg i (List.mem_cons_of_mem _ hi)
    obtain ⟨files2, hok, hfin⟩ := ih files1 himg1
    refine ⟨files2, ?_, ?_⟩
    · unfold resizeLoop
      rw [hp]
      exact hok
    · intro q hq
      simp only [List.map_cons, List.mem_cons] at hq
      rcases hq with rfl | hq
      · by_cases hmem : k ∈ rest.map (fun i => path ++ i)
        · exact hfin k hmem
        · have hfr := resizeLoop_frame W H path rest files1 k hmem
          rw [hok] at hfr
          rw [show lookupFC files2 k = lookupFC files1 k from hfr]
          exact hkimg
      · exact hfin q hq

/-- After a successful loop, every listed path is either (still) not a
regular file or holds an image of exactly the requested dimensions. -/
theorem resizeLoop_ok_final (W H : Int) (path : String)
    (items : List String) (files files2 : Files)
    (h : resizeLoop W H path items files = .ok files2) :
    ∀ q ∈ items.map (fun i => path ++ i),
      lookupFC files2 q = none ∨
        (0 ≤ W ∧ 0 ≤ H ∧ lookupFC files2 q = some (.image (extOf q) W H)) := by
  induction items generalizing files with
  | nil => simp
  | cons item rest ih =>
    unfold resizeLoop at h
    cases hp : processItem W H path files item with
    | error p => rw [hp] at h; exact absurd h (by simp)
    | ok files1 =>
      rw [hp] at h
      replace h : resizeLoop W H path rest files1 = Except.ok files2 := h
      intro q hq
      simp only [List.map_cons, List.mem_cons] at hq
      rcases hq with rfl | hq
      · by_cases hmem : path ++ item ∈ rest.map (fun i => path ++ i)
        · exact ih files1 h _ hmem
        · have hfr := resizeLoop_frame W H path rest files1 (path ++ item) hmem
          rw [h] at hfr
          replace hfr : lookupFC files2 (path ++ item) =
              lookupFC files1 (path ++ item) := hfr
          rcases processItem_ok_inv W H path item files files1 hp with
            ⟨hnone, rfl⟩ | ⟨hW, hH, ⟨f, w, hh, hc⟩, rfl⟩
          · exact Or.inl (by rw [hfr]; exact hnone)
          · refine Or.inr ⟨hW, hH, ?_⟩
            rw [hfr, lookupFC_setFC_self, hc]
            rfl
      · exact ih files1 h _ hq

/-- Re-running the loop on a files state in which every listed path is
either not a regular file or already an image of the requested dimensions
succeeds and leaves the files state unchanged. -/
theorem resizeLoop_id (W H : Int) (path : String) (items : List String)
    (files : Files)
    (hinv : ∀ q ∈ items.map (fun i => path ++ i),
      lookupFC files q = none ∨
        (0 ≤ W ∧ 0 ≤ H ∧ lookupFC files q = some (.image (extOf q) W H))) :
    resizeLoop W H path items files = .ok files := by
  induction items with
  | nil => rfl
  | cons item rest ih =>
    have hrest : ∀ q ∈ rest.map (fun i => path ++ i),
        lookupFC files q = none ∨
          (0 ≤ W ∧ 0 ≤ H ∧ lookupFC files q = some (.image (extOf q) W H)) := by
      intro q hq
      exact hinv q (by simp only [List.map_cons, List.mem_cons]; exact Or.inr hq)
    rcases hinv (path ++ item) (by simp) with hnone | ⟨hW, hH, himg⟩
    · unfold resizeLoop
      rw [processItem_none W H path item files hnone]
      exact ih hrest
    · have hp := processItem_image W H path item files
        (extOf (path ++ item)) W H hW hH himg
      have hset : setFC files (path ++ item)
          (FileContent.image (extOf (path ++ item)) W H) = files :=
        setFC_lookup_eq files (path ++ item) _ himg
      unfold resizeLoop
      rw [hp, hset]
      exact ih hrest

/-- Unfolding equation for one loop iteration. -/
theorem resizeLoop_cons (W H : Int) (path item : String) (rest : List String)
    (files : Files) :
    resizeLoop W H path (item :: rest) files =
      match processItem W H path files item with
      | .error p => Except.error (p, files)
      | .ok files2 => resizeLoop W H path rest files2 := rfl

/-- A loop over a concatenated listing first runs the prefix; if that
succeeds it continues on the suffix from the intermediate files state. -/
theorem resizeLoop_append (W H : Int) (path : String)
    (items1 items2 : List String) (files files1 : Files)
    (h : resizeLoop W H path items1 files = .ok files1) :
    resizeLoop W H path (items1 ++ items2) files =
      resizeLoop W H path items2 files1 := by
  induction items1 generalizing files with
  | nil =>
    have : files = files1 := Except.ok.inj h
    subst this
    rfl
  | cons item rest ih =>
    unfold resizeLoop at h
    cases hp : processItem W H path files item with
    | error p => rw [hp] at h; exact absurd h (by simp)
    | ok f1 =>
      rw [hp] at h
      replace h : resizeLoop W H path rest f1 = Except.ok files1 := h
      have step : resizeLoop W H path (item :: (rest ++ items2)) files =
          resizeLoop W H path (rest ++ items2) f1 := by
        rw [resizeLoop_cons, hp]
      rw [List.cons_append, step]
      exact ih f1 h

/-- `runDir` never reaches the `exit(1)` argument guard: its outcome is a
listing error, a fatal per-file error, or success. -/
theorem runDir_ne_argError (W H : Int) (path : String) (world : World)
    (c : Nat) (w' : World) : runDir W H path world ≠ .argError c w' := by
  unfold runDir
  cases hl : lookupListing world.listings path with
  | none => simp
  | some dirs =>
    cases hr : resizeLoop W H path dirs world.files with
    | error e => obtain ⟨p, pf⟩ := e; simp [hr]
    | ok files2 => simp [hr]

/-- `argparse` signals every argument error with exit status 2. -/
theorem parseArgs_error_code (argv : List String) (c : Nat)
    (h : parseArgs argv = .error c) : c = 2 := by
  rcases argv with _ | ⟨a, _ | ⟨b, _ | ⟨d, _ | ⟨e, rest⟩⟩⟩⟩ <;>
    simp only [parseArgs] at h <;>
    first
      | exact (Except.error.inj h).symm
      | (cases hw : parsePyInt b <;> cases hh : parsePyInt d <;>
          rw [hw, hh] at h <;> simp_all)

/-- Reduction of `runDir` once the directory listing is known. -/
theorem runDir_listing_some (W H : Int) (path : String) (world : World)
    (dirs : List String)
    (h : lookupListing world.listings path = some dirs) :
    runDir W H path world =
      match resizeLoop W H path dirs world.files with
      | .error (p, pf) => RunOutcome.fatal p ⟨world.listings, pf⟩
      | .ok files2 => RunOutcome.ok ⟨world.listings, files2⟩ := by
  unfold runDir
  rw [h]

/-- A successful parse always fills all three argument fields. -/
theorem parseArgs_ok_shape (argv : List String) (a : Args)
    (h : parseArgs argv = .ok a) :
    ∃ p wi hi, a = ⟨some p, some wi, some hi⟩ := by
  rcases argv with _ | ⟨p, _ | ⟨w, _ | ⟨hgt, _ | ⟨e, rest⟩⟩⟩⟩ <;>
    simp only [parseArgs] at h
  case nil => exact absurd h (by simp)
  case cons.nil => exact absurd h (by simp)
  case cons.cons.nil => exact absurd h (by simp)
  case cons.cons.cons.cons => exact absurd h (by simp)
  case cons.cons.cons.nil =>
    cases hw : parsePyInt w <;> cases hh : parsePyInt hgt <;>
      rw [hw, hh] at h <;> simp_all
    exact ⟨p, _, _, h.symm⟩

/-! ## The claims -/

/-- Claim C1: for every directory containing only valid image files, after
running the utility with width `W` and height `H`, every original file is
replaced by an image of exactly `W × H` pixels, with the same file count
and the same file names as before the run. -/
theorem claim_C1_all_files_resized (W H : Int) (path : String)
    (world : World) (dirs : List String) (hW : 0 ≤ W) (hH : 0 ≤ H)
    (hlist : lookupListing world.listings path = some dirs)
    (himg : ∀ item ∈ dirs, ∃ f w h,
      lookupFC world.files (path ++ item) = some (FileContent.image f w h)) :
    ∃ files2, runDir W H path world = .ok ⟨world.listings, files2⟩ ∧
      files2.map Prod.fst = world.files.map Prod.fst ∧
      ∀ item ∈ dirs, lookupFC files2 (path ++ item) =
        some (FileContent.image (extOf (path ++ item)) W H) := by
  obtain ⟨files2, hok, hfin⟩ :=
    resizeLoop_ok_of_images W H path dirs world.files hW hH himg
  have hkeys := resizeLoop_keys W H path dirs world.files
  rw [hok] at hkeys
  replace hkeys : files2.map Prod.fst = world.files.map Prod.fst := hkeys
  refine ⟨files2, ?_, hkeys, ?_⟩
  · rw [runDir_listing_some W H path world dirs hlist, hok]
  · intro item hitem
    exact hfin (path ++ item) (List.mem_map.mpr ⟨item, hitem, rfl⟩)

theorem claim_C1_witness :
    lookupFC (runDir 5 7 "d/"
        ⟨[("d/", ["a.png", "b.jpg"])],
         [("d/a.png", FileContent.image "png" 3 4),
          ("d/b.jpg", FileContent.image "jpeg" 8 9)]⟩).world.files
      ("d/" ++ "a.png") =
      some (FileContent.image (extOf ("d/" ++ "a.png")) 5 7) := by
  obtain ⟨files2, hok, hkeys, hfin⟩ :=
    claim_C1_all_files_resized 5 7 "d/"
      ⟨[("d/", ["a.png", "b.jpg"])],
       [("d/a.png", FileContent.image "png" 3 4),
        ("d/b.jpg", FileContent.image "jpeg" 8 9)]⟩
      ["a.png", "b.jpg"] (by decide) (by decide) (by decide)
      (by
        intro item hitem
        simp only [List.mem_cons, List.not_mem_nil, or_false] at hitem
        rcases hitem with rfl | rfl
        · exact ⟨"png", 3, 4, by decide⟩
        · exact ⟨"jpeg", 8, 9, by decide⟩)
  rw [hok]
  exact hfin "a.png" (by decide)

/-- Claim C2: for a directory whose listing has one undecodable regular
file among valid image files, the run aborts with a fatal error at that
file; every regular file before it (in listing order) has been resized
and overwritten, every file after it is untouched, and nothing is rolled
back. -/
theorem claim_C2_abort_at_bad_file (W H : Int) (path : String)
    (world : World) (pre post : List String) (bad : String) (bs : List Nat)
    (hW : 0 ≤ W) (hH : 0 ≤ H)
    (hlist : lookupListing world.listings path = some (pre ++ bad :: post))
    (hpre : ∀ item ∈ pre, ∃ f w h,
      lookupFC world.files (path ++ item) = some (FileContent.image f w h))
    (hbad : lookupFC world.files (path ++ bad) =
      some (FileContent.nonImage bs))
    (hbadpre : bad ∉ pre) :
    ∃ files2,
      runDir W H path world = .fatal (path ++ bad) ⟨world.listings, files2⟩ ∧
      (∀ item ∈ pre, lookupFC files2 (path ++ item) =
        some (FileContent.image (extOf (path ++ item)) W H)) ∧
      (∀ q, q ∉ pre.map (fun i => path ++ i) →
        lookupFC files2 q = lookupFC world.files q) := by
  obtain ⟨filesP, hokP, hfinP⟩ :=
    resizeLoop_ok_of_images W H path pre world.files hW hH hpre
  have hframe : ∀ q, q ∉ pre.map (fun i => path ++ i) →
      lookupFC filesP q = lookupFC world.files q := by
    intro q hq
    have hfr := resizeLoop_frame W H path pre world.files q hq
    rw [hokP] at hfr
    exact hfr
  have hbadnot : (path ++ bad) ∉ pre.map (fun i => path ++ i) := by
    intro hmem
    obtain ⟨i, hi, heq⟩ := List.mem_map.mp hmem
    exact hbadpre ((append_left_cancel heq) ▸ hi)
  have hbadP : lookupFC filesP (path ++ bad) =
      some (FileContent.nonImage bs) := by
    rw [hframe _ hbadnot]
    exact hbad
  have hloop : resizeLoop W H path (pre ++ bad :: post) world.files =
      .error (path ++ bad, filesP) := by
    rw [resizeLoop_append W H path pre (bad :: post) world.files filesP hokP,
      resizeLoop_cons, processItem_nonImage W H path bad filesP bs hbadP]
  refine ⟨filesP, ?_, ?_, hframe⟩
  · rw [runDir_listing_some W H path world (pre ++ bad :: post) hlist, hloop]
  · intro item hitem
    exact hfinP (path ++ item) (List.mem_map.mpr ⟨item, hitem, rfl⟩)

theorem claim_C2_witness :
    lookupFC (runDir 5 7 "d/"
        ⟨[("d/", ["a.png", "bad.txt", "c.png"])],
         [("d/a.png", FileContent.image "png" 3 4),
          ("d/bad.txt", FileContent.nonImage [1, 2]),
          ("d/c.png", FileContent.image "png" 8 9)]⟩).world.files
      ("d/" ++ "a.png") =
      some (FileContent.image (extOf ("d/" ++ "a.png")) 5 7) ∧
    lookupFC (runDir 5 7 "d/"
        ⟨[("d/", ["a.png", "bad.txt", "c.png"])],
         [("d/a.png", FileContent.image "png" 3 4),
          ("d/bad.txt", FileContent.nonImage [1, 2]),
          ("d/c.png", FileContent.image "png" 8 9)]⟩).world.files
      ("d/" ++ "c.png") = some (FileContent.image "png" 8 9) := by
  obtain ⟨files2, hfatal, hres, hframe⟩ :=
    claim_C2_abort_at_bad_file 5 7 "d/"
      ⟨[("d/", ["a.png", "bad.txt", "c.png"])],
       [("d/a.png", FileContent.image "png" 3 4),
        ("d/bad.txt", FileContent.nonImage [1, 2]),
        ("d/c.png", FileContent.image "png" 8 9)]⟩
      ["a.png"] ["c.png"] "bad.txt" [1, 2] (by decide) (by decide)
      (by decide)
      (by
        intro item hitem
        simp only [List.mem_cons, List.not_mem_nil, or_false] at hitem
        subst hitem
        exact ⟨"png", 3, 4, by decide⟩)
      (by decide) (by decide)
  rw [hfatal]
  exact ⟨hres "a.png" (by decide),
    (hframe ("d/" ++ "c.png") (by decide)).trans (by decide)⟩

/-- Claim C3: every directory entry that is not a regular file is skipped
silently: directory listings are never modified (nothing is descended into
or deleted), a path that is not a regular file is still not one after the
run (nothing was created or modified there), and the per-entry step leaves
the files state unchanged for such entries. -/
theorem claim_C3_non_files_skipped (W H : Int) (path : String)
    (world : World) :
    (runDir W H path world).world.listings = world.listings ∧
    (∀ q, lookupFC world.files q = none →
      lookupFC (runDir W H path world).world.files q = none) ∧
    (∀ files item, lookupFC files (path ++ item) = none →
      processItem W H path files item = .ok files) := by
  refine ⟨?_, ?_, fun files item h => processItem_none W H path item files h⟩
  · unfold runDir
    cases hl : lookupListing world.listings path with
    | none => rfl
    | some dirs =>
      cases hr : resizeLoop W H path dirs world.files with
      | error e =>
        obtain ⟨p, pf⟩ := e
        simp [hr, RunOutcome.world]
      | ok files2 => simp [hr, RunOutcome.world]
  · intro q hq
    unfold runDir
    cases hl : lookupListing world.listings path with
    | none => exact hq
    | some dirs =>
      have hn := resizeLoop_preserves_none W H path dirs world.files q hq
      cases hr : resizeLoop W H path dirs world.files with
      | error e =>
        obtain ⟨p, pf⟩ := e
        rw [hr] at hn
        simpa [RunOutcome.world, loopFiles, hr] using hn
      | ok files2 =>
        rw [hr] at hn
        simpa [RunOutcome.world, loopFiles, hr] using hn

theorem claim_C3_witness :
    lookupFC (runDir 5 7 "d/"
        ⟨[("d/", ["sub"])], []⟩).world.files ("d/" ++ "sub") = none ∧
    (runDir 5 7 "d/" ⟨[("d/", ["sub"])], []⟩).world.listings =
      [("d/", ["sub"])] := by
  have h := claim_C3_non_files_skipped 5 7 "d/" ⟨[("d/", ["sub"])], []⟩
  exact ⟨h.2.1 ("d/" ++ "sub") (by decide), h.1⟩

/-- Claim C4: for a single-file directory containing a 100×100 PNG,
invoking the utility with width 50 and height 25 produces a file at the
same path whose decoded dimensions are exactly 50×25. -/
theorem claim_C4_roundtrip_50x25 :
    run ["d/", "50", "25"]
        ⟨[("d/", ["img.png"])],
         [("d/img.png", FileContent.image "png" 100 100)]⟩ =
      .ok ⟨[("d/", ["img.png"])],
           [("d/img.png", FileContent.image "png" 50 25)]⟩ ∧
    (((lookupFC (run ["d/", "50", "25"]
          ⟨[("d/", ["img.png"])],
           [("d/img.png", FileContent.image "png" 100 100)]⟩).world.files
        "d/img.png").bind Image_open).map
      (fun im => (im.width, im.height))) = some (50, 25) :=
  ⟨rfl, rfl⟩

/-- Claim C5: running the utility twice with the same width and height is
idempotent with respect to image dimensions: the second run succeeds and
changes nothing, and every listed regular file holds an image of exactly
the requested dimensions after the first run (hence also after the
second). -/
theorem claim_C5_idempotent_dimensions (W H : Int) (path : String)
    (world w1 : World) (h : runDir W H path world = .ok w1) :
    runDir W H path w1 = .ok w1 ∧
    ∀ dirs, lookupListing w1.listings path = some dirs →
      ∀ item ∈ dirs, ∀ c, lookupFC w1.files (path ++ item) = some c →
        ∃ f, c = FileContent.image f W H := by
  cases hl : lookupListing world.listings path with
  | none =>
    unfold runDir at h
    rw [hl] at h
    exact absurd h (by simp)
  | some dirs =>
    rw [runDir_listing_some W H path world dirs hl] at h
    cases hr : resizeLoop W H path dirs world.files with
    | error e =>
      obtain ⟨p, pf⟩ := e
      rw [hr] at h
      exact absurd h (by simp)
    | ok files2 =>
      rw [hr] at h
      replace h : RunOutcome.ok ⟨world.listings, files2⟩ =
        RunOutcome.ok w1 := h
      obtain rfl : w1 = ⟨world.listings, files2⟩ := (RunOutcome.ok.inj h).symm
      have hinv := resizeLoop_ok_final W H path dirs world.files files2 hr
      constructor
      · have hl1 : lookupListing
            (World.mk world.listings files2).listings path = some dirs := hl
        rw [runDir_listing_some W H path ⟨world.listings, files2⟩ dirs hl1,
          show (World.mk world.listings files2).files = files2 from rfl,
          resizeLoop_id W H path dirs files2 hinv]
      · intro dirs' hl' item hitem c hc
        have hdirs : dirs' = dirs := by
          have h1 : lookupListing world.listings path = some dirs' := hl'
          rw [hl] at h1
          exact (Option.some.inj h1).symm
        subst hdirs
        have hq := hinv (path ++ item) (List.mem_map.mpr ⟨item, hitem, rfl⟩)
        replace hc : lookupFC files2 (path ++ item) = some c := hc
        rcases hq with hq | ⟨-, -, hq⟩
        · rw [hq] at hc
          exact absurd hc (by simp)
        · rw [hq] at hc
          exact ⟨extOf (path ++ item), (Option.some.inj hc).symm⟩

theorem claim_C5_witness :
    runDir 5 7 "d/"
        ⟨[("d/", ["a.png"])], [("d/a.png", FileContent.image "png" 5 7)]⟩ =
      .ok ⟨[("d/", ["a.png"])], [("d/a.png", FileContent.image "png" 5 7)]⟩ :=
  (claim_C5_idempotent_dimensions 5 7 "d/"
    ⟨[("d/", ["a.png"])], [("d/a.png", FileContent.image "png" 3 4)]⟩
    ⟨[("d/", ["a.png"])], [("d/a.png", FileContent.image "png" 5 7)]⟩
    (by decide)).1

/-- Claim C6: invoking the utility with fewer than three positional
arguments exits with the nonzero status 2 before any processing, leaving
the filesystem unmodified. -/
theorem claim_C6_missing_args (argv : List String) (world : World)
    (h : argv.length < 3) :
    run argv world = .argError 2 world ∧ (2 : Nat) ≠ 0 := by
  refine ⟨?_, by decide⟩
  rcases argv with _ | ⟨a, _ | ⟨b, _ | ⟨c, rest⟩⟩⟩
  · rfl
  · rfl
  · rfl
  · simp only [List.length_cons] at h
    omega

theorem claim_C6_witness :
    run ["d/", "50"] (⟨[("d/", ["a.png"])],
        [("d/a.png", FileContent.image "png" 3 4)]⟩ : World) =
      .argError 2 ⟨[("d/", ["a.png"])],
        [("d/a.png", FileContent.image "png" 3 4)]⟩ ∧ (2 : Nat) ≠ 0 :=
  claim_C6_missing_args ["d/", "50"]
    ⟨[("d/", ["a.png"])], [("d/a.png", FileContent.image "png" 3 4)]⟩
    (by decide)

/-- Claim C7: the file path used to test, open, and save each entry is the
direct string concatenation of `path` and the entry name, with no
separator normalization: the per-entry step depends on `path` and `item`
only through `path ++ item`, and concretely a caller that omits the
trailing separator silently skips the intended file (the concatenated path
is not a regular file), while the same call with a trailing separator
resizes it. -/
theorem claim_C7_direct_concatenation (W H : Int) (files : Files)
    (p1 i1 p2 i2 : String) (h : p1 ++ i1 = p2 ++ i2) :
    processItem W H p1 files i1 = processItem W H p2 files i2 ∧
    processItem 5 7 "d" [("d/a.png", FileContent.image "png" 9 9)] "a.png" =
      .ok [("d/a.png", FileContent.image "png" 9 9)] ∧
    processItem 5 7 "d/" [("d/a.png", FileContent.image "png" 9 9)] "a.png" =
      .ok [("d/a.png", FileContent.image "png" 5 7)] := by
  refine ⟨?_, by rfl, by rfl⟩
  unfold processItem
  rw [h]

theorem claim_C7_witness :
    processItem 5 7 "d/" [("d/a.png", FileContent.image "png" 9 9)] "a.png" =
      processItem 5 7 "d/a" [("d/a.png", FileContent.image "png" 9 9)] ".png" :=
  (claim_C7_direct_concatenation 5 7 [("d/a.png", FileContent.image "png" 9 9)]
    "d/" "a.png" "d/a" ".png" (by decide)).1

/-- Claim C8: the `exit(1)` branch guarding unresolved arguments is
unreachable: every invocation that passes argument parsing has all three
of `path`, `width`, `height` resolved (not `None`), so the program never
exits with code 1 from that check. -/
theorem claim_C8_exit1_unreachable (argv : List String) (world : World) :
    (∀ a, parseArgs argv = .ok a →
      a.path.isSome = true ∧ a.width.isSome = true ∧
        a.height.isSome = true) ∧
    ∀ w', run argv world ≠ .argError 1 w' := by
  constructor
  · intro a ha
    obtain ⟨p, wi, hi, rfl⟩ := parseArgs_ok_shape argv a ha
    exact ⟨rfl, rfl, rfl⟩
  · intro w' hcontra
    unfold run at hcontra
    cases hp : parseArgs argv with
    | error c =>
      rw [hp] at hcontra
      replace hcontra : RunOutcome.argError c world =
        RunOutcome.argError 1 w' := hcontra
      have hc2 := parseArgs_error_code argv c hp
      have : c = 1 := by
        injection hcontra
      omega
    | ok a =>
      rw [hp] at hcontra
      obtain ⟨p, wi, hi, rfl⟩ := parseArgs_ok_shape argv a hp
      replace hcontra :
          runDir wi hi p world = RunOutcome.argError 1 w' := by
        simpa using hcontra
      exact runDir_ne_argError wi hi p world 1 w' hcontra

theorem claim_C8_witness :
    run ["d/", "50", "25"] (⟨[], []⟩ : World) ≠
      .argError 1 (⟨[], []⟩ : World) :=
  (claim_C8_exit1_unreachable ["d/", "50", "25"] ⟨[], []⟩).2 ⟨[], []⟩

/-- Claim C9: when the width or height argument is present but does not
parse as an integer, argument parsing exits with the nonzero status 2
before the directory is listed and before any file is opened or modified:
the filesystem is returned unchanged whatever it contains. -/
theorem claim_C9_unparseable_int (p w h : String) (world : World)
    (hbad : parsePyInt w = none ∨ parsePyInt h = none) :
    run [p, w, h] world = .argError 2 world := by
  have hpa : parseArgs [p, w, h] = .error 2 := by
    rcases hbad with hb | hb
    · cases hx : parsePyInt h <;> simp [parseArgs, hb, hx]
    · cases hx : parsePyInt w <;> simp [parseArgs, hb, hx]
  unfold run
  rw [hpa]

theorem claim_C9_witness :
    run ["d/", "abc", "25"] (⟨[("d/", ["a.png"])],
        [("d/a.png", FileContent.image "png" 3 4)]⟩ : World) =
      .argError 2 ⟨[("d/", ["a.png"])],
        [("d/a.png", FileContent.image "png" 3 4)]⟩ :=
  claim_C9_unparseable_int "d/" "abc" "25"
    ⟨[("d/", ["a.png"])], [("d/a.png", FileContent.image "png" 3 4)]⟩
    (Or.inl (by decide))

/-- Claim C10: when `path` does not name an existing listable directory,
the `os.listdir` step raises before the resize loop begins: the process
terminates with a fatal listing error and the filesystem is returned
unchanged, so no file was opened, decoded, or modified. -/
theorem claim_C10_bad_directory (p ws hs : String) (world : World)
    (wi hi : Int) (hw : parsePyInt ws = some wi)
    (hh : parsePyInt hs = some hi)
    (hlist : lookupListing world.listings p = none) :
    run [p, ws, hs] world = .listError world := by
  have hpa : parseArgs [p, ws, hs] = .ok ⟨some p, some wi, some hi⟩ := by
    simp [parseArgs, hw, hh]
  unfold run
  rw [hpa]
  simp only [Option.isNone_some, Option.isNone_none]
  rw [if_neg (by simp)]
  unfold runDir
  rw [show (Args.mk (some p) (some wi) (some hi)).path.getD "" = p from rfl,
    show (Args.mk (some p) (some wi) (some hi)).width.getD 0 = wi from rfl,
    show (Args.mk (some p) (some wi) (some hi)).height.getD 0 = hi from rfl,
    hlist]

theorem claim_C10_witness :
    run ["nodir", "50", "25"] (⟨[("d/", ["a.png"])],
        [("d/a.png", FileContent.image "png" 3 4)]⟩ : World) =
      .listError ⟨[("d/", ["a.png"])],
        [("d/a.png", FileContent.image "png" 3 4)]⟩ :=
  claim_C10_bad_directory "nodir" "50" "25"
    ⟨[("d/", ["a.png"])], [("d/a.png", FileContent.image "png" 3 4)]⟩
    50 25 (by decide) (by decide) (by decide)

end ResizeUtil
